import Mathlib

/-!
# Verification of the MongoShake collector core

This file gives a shallow embedding, in Lean 4, of the parts of the
MongoShake collector that the specification talks about:

* `collector/replication.go` — the replication coordinator
  (`selectSyncMode`, the `SYNCMODE_ALL` branch of `Run`);
* the oplog syncer (`startBatcher`, `checkCheckpointUpdate`,
  `deserializer`, `poll`, `next`, `transfer`);
* the document syncer (`DBSyncer.Start`, `CollectionExecutor.Sync`,
  `CollectionExecutor.Wait`, `DocExecutor.start`).

Pure Go functions become Lean functions; the stateful loops become
explicit state-transition functions (one Lean function per loop
iteration, or a fuel-indexed recursion for the loops themselves).
`bson.MongoTimestamp` (an `int64` whose high 32 bits are seconds since
the epoch, low 32 bits a per-second counter) is modelled by `Int`; no
arithmetic here can overflow 64 bits on the values the program
manipulates, so no wrap-around is modelled.
-/

/-! ## Timestamps and shared constants -/

/-- Sync-mode string constants from `replication.go`. -/
def SYNCMODE_ALL : String := "all"

/-- See `SYNCMODE_ALL`. -/
def SYNCMODE_DOCUMENT : String := "document"

/-- See `SYNCMODE_ALL`. -/
def SYNCMODE_OPLOG : String := "oplog"

/-- `DurationTime = 6000` (ms), from the syncer constants block. -/
def DurationTime : Int := 6000

/-- `DDLCheckpointInterval = 300` (ms). -/
def DDLCheckpointInterval : Int := 300

/-- `FilterCheckpointGap = 180` (seconds of logical time). -/
def FilterCheckpointGap : Int := 180

/-- `FilterCheckpointCheckInterval = 180` (seconds of wall time). -/
def FilterCheckpointCheckInterval : Int := 180

/-- Nanoseconds in one second: Go's `time.Second`.  Wall-clock instants
(`time.Time`) are modelled as `Int` nanosecond counts, so
`t.Add(FilterCheckpointCheckInterval*time.Second)` becomes
`t + FilterCheckpointCheckInterval * timeSecondNs`. -/
def timeSecondNs : Int := 1000000000

/-- Modelled from the spec: `utils.ExtractMongoTimestamp` is not under
`src/`.  The spec fixes the timestamp layout — "the high 32 bits are
seconds since epoch, low 32 bits a per-second counter" — and the
`RestAPI` code in the source uses `ExtractMongoTimestamp` to produce
the Unix-seconds field, so the function extracts the seconds part:
an arithmetic right shift by 32, i.e. floor division by `2^32`. -/
def ExtractMongoTimestamp (ts : Int) : Int :=
  Int.fdiv ts 4294967296

/-- Per-source pair of journal timestamps, as in `utils.TimestampNode`:
the oldest entry still available in the source journal and the newest
entry. -/
structure TimestampNode where
  Oldest : Int
  Newest : Int
  deriving DecidableEq, Repr

/-- Aggregates returned by `utils.GetAllTimestamp` (see
`getAllTimestamp`). -/
structure AllTimestampAgg where
  tsMap : List (String × TimestampNode)
  biggestNew : Int
  smallestNew : Int
  biggestOld : Int
  smallestOld : Int
  deriving DecidableEq, Repr

/-- Modelled from the spec: `utils.GetAllTimestamp` is not under
`src/`; only its two call sites are.  It fetches, for every source, the
oldest and newest journal timestamps, and also returns four aggregates.
The source comment above the call in `selectSyncMode` fixes the third
result: "oldestTs is the smallest of the all newest timestamp"; the
call in `Run` names the second result `fullFinishTs` ("current newest
timestamp") and the fourth `oldestTs` used for "the oldest oplog is
lost", so the result order is
`(tsMap, biggestNew, smallestNew, biggestOld, smallestOld, err)`.
The aggregates are min/max folds from the sentinels `0` and
`MaxInt64`, which is the standard idiom the call sites rely on.  The
connection failure case is represented by the caller receiving
`Except.error` instead of a node list. -/
def getAllTimestamp (nodes : List (String × TimestampNode)) : AllTimestampAgg :=
  { tsMap := nodes
    biggestNew := (nodes.map (fun p => p.2.Newest)).foldl max 0
    smallestNew := (nodes.map (fun p => p.2.Newest)).foldl min (2 ^ 63 - 1)
    biggestOld := (nodes.map (fun p => p.2.Oldest)).foldl max 0
    smallestOld := (nodes.map (fun p => p.2.Oldest)).foldl min (2 ^ 63 - 1) }

/-! ## The replication coordinator (`replication.go`)

`selectSyncMode` receives the configured mode, the outcome of
`utils.GetAllTimestamp` (a node list on success), and the per-replica
stored checkpoint timestamp (`ckpt.NewCheckpointManager(replName, 0)
.Get().Timestamp`), modelled as a function from replica-set name to
timestamp.  It returns the effective mode, `fullBeginTs`, and the error
value — which is `none` (Go `nil`) on every path of the source. -/

/-- Shallow embedding of `ReplicationCoordinator.selectSyncMode`
(`replication.go` lines 180–208). -/
def selectSyncMode (syncMode : String)
    (fetch : Except Unit (List (String × TimestampNode)))
    (ckptTs : String → Int) : String × Int × Option String :=
  if syncMode ≠ SYNCMODE_ALL then (syncMode, 0, none)
  else
    match fetch with
    | .error _ => (syncMode, 0, none)
    | .ok nodes =>
      if nodes.any (fun p => decide (p.2.Oldest ≥ ckptTs p.1)) then
        (SYNCMODE_ALL, (getAllTimestamp nodes).smallestNew, none)
      else
        (SYNCMODE_OPLOG, 0, none)

/-- Outcome of the `SYNCMODE_ALL` branch of
`ReplicationCoordinator.Run` after `startDocumentReplication`
succeeded (`replication.go` lines 74–95). -/
inductive RunAllOutcome where
  | fetchError
  | handoffFatal
  | startIncr (oplogStartPosition : Int) (fullSyncFinishPosition : Int)
  deriving DecidableEq, Repr

/-- Shallow embedding of `Run`'s post-full-sync handoff decision
(`replication.go` lines 74–95): re-fetch the timestamps; on error fail;
if `utils.ExtractMongoTimestamp(oldestTs) >= fullBeginTs` (where
`oldestTs` is the fourth `GetAllTimestamp` result, the biggest oldest)
return the fatal "incr sync ts is less than current oldest ts" error;
otherwise start oplog replication from `fullBeginTs` with finish
position `fullFinishTs` (the biggest newest). -/
def runSyncModeAll (fetch : Except Unit (List (String × TimestampNode)))
    (fullBeginTs : Int) : RunAllOutcome :=
  match fetch with
  | .error _ => .fetchError
  | .ok nodes =>
    let agg := getAllTimestamp nodes
    if ExtractMongoTimestamp agg.biggestOld ≥ fullBeginTs then .handoffFatal
    else .startIncr fullBeginTs agg.biggestNew

/-! ## The oplog syncer pipeline (`part_000`)

The syncer state relevant to `transfer` consists of the local raw
buffer, the pending queues (each Go channel `pendingQueue[i]` is a FIFO
of raw batches, modelled as a list of batches in send order) and the
`nextQueuePosition` cursor.  The raw-entry type (`*bson.Raw`) is an
abstract type parameter `α`. -/

structure SyncerState (α : Type) where
  buffer : List α
  pendingQueue : List (List (List α))
  nextQueuePosition : Nat
  deriving DecidableEq, Repr

/-- Shallow embedding of `OplogSyncer.transfer` (`part_000` lines
391–410).  A non-nil entry is appended to the buffer; `flush` is set
when the call carried no entry; when the buffer has reached
`conf.Options.FetcherBufferCapacity` (`cap`) or a flush finds it
non-empty, the buffer is sent to channel
`nextQueuePosition % len(pendingQueue)`, the buffer is reset and the
position incremented; the returned `Bool` is `transfer`'s return
value. -/
def transfer {α : Type} (cap : Nat) (st : SyncerState α) (log : Option α) :
    SyncerState α × Bool :=
  let buffer := match log with
    | some l => st.buffer ++ [l]
    | none => st.buffer
  if cap ≤ buffer.length ∨ (log.isNone = true ∧ buffer.length ≠ 0) then
    let selected := st.nextQueuePosition % st.pendingQueue.length
    ({ buffer := []
       pendingQueue := st.pendingQueue.set selected
         ((st.pendingQueue.getD selected []) ++ [buffer])
       nextQueuePosition := st.nextQueuePosition + 1 }, true)
  else
    ({ st with buffer := buffer }, false)

/-- `oplog.GenericOplog`: raw bytes and parsed view carried together. -/
structure GenericOplog (α β : Type) where
  Raw : α
  Parsed : β
  deriving DecidableEq, Repr

/-- Body of one `deserializer` round (`part_000` lines 303–317) on a
single dequeued raw batch: parse every raw entry (`bson.Unmarshal`,
modelled by the abstract `parse`) and emit the combined batch pushed
into `logsQueue`.  The source asserts the dequeued batch has non-zero
length before this. -/
def deserializeBatch {α β : Type} (parse : α → β) (batchRawLogs : List α) :
    List (GenericOplog α β) :=
  batchRawLogs.map (fun rawLog => ⟨rawLog, parse rawLog⟩)

/-- Outcome of one `reader.Next()` call as `OplogSyncer.next`
distinguishes them (`part_000` lines 364–389): a non-nil raw entry; a
nil entry with `TimeoutError` (or no error); `CollectionCappedError`;
any other error. -/
inductive ReaderResult (α : Type) where
  | entry (log : α)
  | timeout
  | capped
  | otherErr
  deriving DecidableEq, Repr

/-- Side effects of one `next` call that the claims talk about. -/
inductive NextEffect where
  | noEffect
  | cappedLogged
  | fetchBadYield (ms : Int)
  deriving DecidableEq, Repr

/-- Shallow embedding of `OplogSyncer.next` (`part_000` lines 364–389).
On a non-nil entry the metrics are updated (not modelled) and the entry
is handed to `transfer`; on `CollectionCappedError` the function
returns `false` immediately — without touching the buffer; on any
other non-timeout error it marks the fetch status bad and yields
`DurationTime` ms, then falls through to `transfer nil`
(flush-on-idle), as the timeout case also does. -/
def next {α : Type} (cap : Nat) (st : SyncerState α) (r : ReaderResult α) :
    SyncerState α × Bool × NextEffect :=
  match r with
  | .entry l =>
    let t := transfer cap st (some l)
    (t.1, t.2, .noEffect)
  | .capped => (st, false, .cappedLogged)
  | .timeout =>
    let t := transfer cap st none
    (t.1, t.2, .noEffect)
  | .otherErr =>
    let t := transfer cap st none
    (t.1, t.2, .fetchBadYield DurationTime)

/-- Shallow embedding of the fetch loop inside `OplogSyncer.poll`
(`part_000` lines 337–360): while `quorum.IsMaster()` holds, either
the rate controller throttles the iteration (sleep 100 ms and
`continue`) or `sync.next()` is called — its return value is
discarded by the source.  `isMaster i` and `throttle i` give the
environment at loop test `i`; `readerSeq i` is what the reader yields
at that iteration; `fuel` bounds the number of loop tests (the real
loop is unbounded).  Returns the final syncer state and the number of
`next` calls (reader fetches) performed. -/
def pollLoop {α : Type} (cap : Nat) (isMaster throttle : Nat → Bool)
    (readerSeq : Nat → ReaderResult α) :
    SyncerState α → Nat → Nat → SyncerState α × Nat
  | st, _, 0 => (st, 0)
  | st, i, Nat.succ f =>
    if isMaster i then
      if throttle i then pollLoop cap isMaster throttle readerSeq st (i + 1) f
      else
        let r := next cap st (readerSeq i)
        let rest := pollLoop cap isMaster throttle readerSeq r.1 (i + 1) f
        (rest.1, rest.2 + 1)
    else (st, 0)

/-! ## `checkCheckpointUpdate` (`part_000` lines 262–280)

The spin loop reads the checkpoint manager's in-memory timestamp,
breaks when it has reached `newestTs`, and otherwise sleeps
`DDLCheckpointInterval` ms and re-flushes (`sync.checkpoint(true, 0)`)
before the next read.  `ckptAt i` is the timestamp observed at the
`i`-th read (reads after the `i`-th re-flush may observe a new value);
the result `some k` means the function returned after `k`
yield/re-flush rounds, `none` that it was still spinning after `fuel`
reads. -/

def checkCheckpointUpdateLoop (ckptAt : Nat → Int) (newestTs : Int) :
    Nat → Nat → Option Nat
  | _, 0 => none
  | i, Nat.succ f =>
    if ckptAt i ≥ newestTs then some i
    else checkCheckpointUpdateLoop ckptAt newestTs (i + 1) f

/-- Shallow embedding of `OplogSyncer.checkCheckpointUpdate`: the spin
loop runs only under `barrier && newestTs > 0 && conf.Options.WorkerNum
> 1`; otherwise the function returns at once (`some 0`, zero spin
rounds). -/
def checkCheckpointUpdate (workerNum : Int) (barrier : Bool) (newestTs : Int)
    (ckptAt : Nat → Int) (fuel : Nat) : Option Nat :=
  if barrier = true ∧ newestTs > 0 ∧ workerNum > 1 then
    checkCheckpointUpdateLoop ckptAt newestTs 0 fuel
  else some 0

/-! ## One iteration of the batcher loop (`part_000` lines 175–260)

`startBatcher` keeps two loop-local variables across iterations:
`filterFlag` (whether the previous observed log was filtered) and
`filterCheckTs` (the wall time at which the current filtered-only run
began).  One iteration observes `batcher.batchMore()` and
`batcher.getLastOplog()`; for the claims it suffices to know
`allEmpty`, the timestamp of the last non-filtered oplog (`log`,
`none` when nil) and of the last filtered oplog (`filterLog`), the
current wall clock `now` (in nanoseconds) and the stored checkpoint
timestamp `ckptTs` read through the manager. -/

structure BatcherLoopState where
  filterFlag : Bool
  filterCheckTs : Int
  deriving DecidableEq, Repr

/-- What one batcher iteration does, beyond updating the loop state:
dispatch the batched oplogs (followed by `checkpoint(barrier, 0)` and
`checkCheckpointUpdate`); return without checkpoint movement; push the
checkpoint forward mandatorily to `newestTs` (`checkpoint(false,
newestTs)`), first spin-waiting on `waitTs` when a last non-filtered
oplog exists; or crash (`LOG.Crashf`). -/
inductive BatcherAction where
  | dispatch (newestTs : Int)
  | skip
  | mandatoryAdvance (waitTs : Option Int) (newestTs : Int)
  | crash
  deriving DecidableEq, Repr

/-- The timestamp to which an action pushes the checkpoint forward
mandatorily, if any. -/
def BatcherAction.advancesTo : BatcherAction → Option Int
  | .mandatoryAdvance _ t => some t
  | _ => none

/-- Shallow embedding of one iteration of the `startBatcher` loop body
(`part_000` lines 184–258). -/
def batcherIteration (st : BatcherLoopState) (log filterLog : Option Int)
    (allEmpty : Bool) (now ckptTs : Int) : BatcherLoopState × BatcherAction :=
  match log, allEmpty with
  | some l, false => (⟨false, st.filterCheckTs⟩, .dispatch l)
  | _, _ =>
    match filterLog with
    | none => (st, .skip)
    | some f =>
      if st.filterFlag = false then (⟨true, now⟩, .skip)
      else if ¬ (now > st.filterCheckTs + FilterCheckpointCheckInterval * timeSecondNs) then
        (st, .skip)
      else if ExtractMongoTimestamp f - FilterCheckpointGap > ExtractMongoTimestamp ckptTs then
        match log with
        | some l =>
          if f ≤ l then (⟨false, st.filterCheckTs⟩, .crash)
          else (⟨false, st.filterCheckTs⟩, .mandatoryAdvance (some l) f)
        | none => (⟨false, st.filterCheckTs⟩, .mandatoryAdvance none f)
      else (st, .skip)

/-! ## The document syncer (`part_001`)

`DBSyncer.Start` drains the namespace list through a channel into
`collExecutorParallel` workers; every failure of
`syncer.collectionSync` overwrites the shared `syncError` variable and
the loop continues with the next namespace.  The model processes the
namespaces sequentially in channel order (one worker; with several
workers the overwriting order is a race, but every schedule overwrites
earlier failures with later ones).  Namespaces are an abstract type
`δ`, errors an abstract type `ε`; `collectionSyncRes ns` is the result
of `syncer.collectionSync` on `ns`. -/

def dbSyncerLoop {δ ε : Type} (collectionSyncRes : δ → Option ε) :
    Option ε → List δ → Option ε × Nat
  | syncError, [] => (syncError, 0)
  | syncError, ns :: rest =>
    let e := match collectionSyncRes ns with
      | some err => some err
      | none => syncError
    let r := dbSyncerLoop collectionSyncRes e rest
    (r.1, r.2 + 1)

/-- Shallow embedding of `DBSyncer.Start` (`part_001` lines 442–502):
returns the final `syncError` and the number of namespaces processed
(each namespace is processed: the loop never breaks early on
error). -/
def dbSyncerStart {δ ε : Type} (collectionSyncRes : δ → Option ε)
    (nsList : List δ) : Option ε × Nat :=
  dbSyncerLoop collectionSyncRes none nsList

/-- State of one `DocExecutor` during its `start` loop (`part_001`
lines 115–130): the sticky `error` field, the number of
`colExecutor.wg.Done()` calls made, and the batches actually handed to
`doSync` (i.e. for which an insert into the destination was
attempted).  Batches are an abstract type `γ`. -/
structure DocExecutorState (γ ε : Type) where
  error : Option ε
  wgDoneCount : Nat
  attempted : List γ
  deriving DecidableEq, Repr

/-- One round of the `DocExecutor.start` loop on a dequeued batch:
when no error has been recorded, `doSync` is invoked (its result
`doSyncRes docs`, `none` on success, becomes the new error field);
otherwise the batch is discarded; `wg.Done()` runs either way. -/
def docExecutorStep {γ ε : Type} (doSyncRes : γ → Option ε)
    (st : DocExecutorState γ ε) (docs : γ) : DocExecutorState γ ε :=
  if st.error.isNone then
    { error := doSyncRes docs
      wgDoneCount := st.wgDoneCount + 1
      attempted := st.attempted ++ [docs] }
  else
    { st with wgDoneCount := st.wgDoneCount + 1 }

/-- The `DocExecutor.start` loop over the whole sequence of batches it
dequeues before `docBatch` is closed. -/
def docExecutorRun {γ ε : Type} (doSyncRes : γ → Option ε) :
    DocExecutorState γ ε → List γ → DocExecutorState γ ε
  | st, [] => st
  | st, docs :: rest => docExecutorRun doSyncRes (docExecutorStep doSyncRes st docs) rest

/-- Shallow embedding of `CollectionExecutor.Sync` (`part_001` lines
69–77) acting on the pair (number of `wg.Add(1)` calls, batches sent to
`docBatch`): an empty batch returns before touching either. -/
def collectionExecutorSync {γ : Type} (st : Nat × List (List γ))
    (docs : List γ) : Nat × List (List γ) :=
  if docs.length = 0 then st
  else (st.1 + 1, st.2 ++ [docs])

/-- The error-reporting part of `CollectionExecutor.Wait` (`part_001`
lines 79–90): after the wait-group drains, scan the executors in slice
order and return the first non-nil error field (the source wraps it in
a "sync ns ... failed" message; the model returns the underlying
error). -/
def collectionExecutorWait {ε : Type} : List (Option ε) → Option ε
  | [] => none
  | none :: rest => collectionExecutorWait rest
  | some e :: _ => some e

/-! ### Helper lemmas about min folds -/

lemma foldl_min_le_init (l : List Int) (a : Int) : l.foldl min a ≤ a := by
  induction l generalizing a with
  | nil => simp
  | cons x xs ih =>
    simpa using le_trans (ih (min a x)) (min_le_left a x)

lemma foldl_min_le_mem (l : List Int) (a : Int) :
    ∀ x ∈ l, l.foldl min a ≤ x := by
  induction l generalizing a with
  | nil => simp
  | cons y ys ih =>
    intro x hx
    rcases List.mem_cons.mp hx with h | h
    · subst h
      simpa using le_trans (foldl_min_le_init ys (min a x)) (min_le_right a x)
    · exact ih (min a y) x h

lemma foldl_min_mem_or_init (l : List Int) (a : Int) :
    l.foldl min a = a ∨ l.foldl min a ∈ l := by
  induction l generalizing a with
  | nil => simp
  | cons y ys ih =>
    rcases ih (min a y) with h | h
    · by_cases hay : a ≤ y
      · exact Or.inl (by simpa [List.foldl_cons, min_eq_left hay] using h)
      · refine Or.inr ?_
        have hmin : min a y = y := min_eq_right (le_of_not_le hay)
        simp only [List.foldl_cons]
        rw [h, hmin]
        exact List.mem_cons_self y ys
    · exact Or.inr (List.mem_cons_of_mem y h)

/-! ### Claims C1, C9 about `selectSyncMode` and C3 about `Run` -/

/-- Claim C1, counterexample.  The claim states that when mode `all` is
kept, `fullBeginTs` is the minimum **oldest** timestamp across sources.
On a single source with oldest `5`, newest `10` and stored checkpoint
`3` (checkpoint not ahead of the oldest entry, so full sync is needed),
the code returns `fullBeginTs = 10`, the smallest **newest** timestamp
— the source comment says so verbatim ("oldestTs is the smallest of
the all newest timestamp") — while the minimum oldest timestamp is
`5 ≠ 10`. -/
theorem selectSyncMode_min_newest_cx :
    selectSyncMode SYNCMODE_ALL (.ok [("r", ⟨5, 10⟩)]) (fun _ => 3)
      = (SYNCMODE_ALL, 10, none)
    ∧ (getAllTimestamp [("r", ⟨5, 10⟩)]).smallestOld = 5
    ∧ (10 : Int) ≠ 5 := by
  refine ⟨by decide, by decide, by decide⟩

lemma selectSyncMode_all_ok (nodes : List (String × TimestampNode))
    (ckptTs : String → Int) :
    selectSyncMode SYNCMODE_ALL (.ok nodes) ckptTs
      = if nodes.any (fun p => decide (p.2.Oldest ≥ ckptTs p.1)) then
          (SYNCMODE_ALL, (getAllTimestamp nodes).smallestNew, none)
        else (SYNCMODE_OPLOG, 0, none) := rfl

/-- Claim C1, amended: for configured mode other than `all` the mode is
returned unchanged with `fullBeginTs = 0`; for mode `all`,
`selectSyncMode` downgrades to `oplog` (with `fullBeginTs = 0`) iff
every source's stored checkpoint is strictly greater than that source's
oldest journal timestamp; otherwise it keeps mode `all` with
`fullBeginTs` equal to the minimum **newest** timestamp across sources
(not the minimum oldest, as the claim said).  The last two conjuncts
show that `smallestNew` really is the minimum of the per-source newest
timestamps: it is a lower bound, and it is attained whenever the source
list is nonempty and the timestamps are below the `MaxInt64`
sentinel. -/
theorem selectSyncMode_amended (m : String)
    (fetch : Except Unit (List (String × TimestampNode)))
    (ckptTs : String → Int) (nodes : List (String × TimestampNode)) :
    (m ≠ SYNCMODE_ALL → selectSyncMode m fetch ckptTs = (m, 0, none))
    ∧ (selectSyncMode SYNCMODE_ALL (.ok nodes) ckptTs = (SYNCMODE_OPLOG, 0, none)
        ↔ ∀ p ∈ nodes, ckptTs p.1 > p.2.Oldest)
    ∧ (¬ (∀ p ∈ nodes, ckptTs p.1 > p.2.Oldest) →
        selectSyncMode SYNCMODE_ALL (.ok nodes) ckptTs
          = (SYNCMODE_ALL, (getAllTimestamp nodes).smallestNew, none))
    ∧ (∀ p ∈ nodes, (getAllTimestamp nodes).smallestNew ≤ p.2.Newest)
    ∧ (nodes ≠ [] → (∀ p ∈ nodes, p.2.Newest ≤ 2 ^ 63 - 1) →
        ∃ p ∈ nodes, (getAllTimestamp nodes).smallestNew = p.2.Newest) := by
  refine ⟨?_, ?_, ?_, ?_, ?_⟩
  · intro hm
    simp [selectSyncMode, hm]
  · by_cases hany : nodes.any (fun p => decide (p.2.Oldest ≥ ckptTs p.1)) = true
    · rw [selectSyncMode_all_ok, if_pos hany]
      constructor
      · intro heq
        have hms : SYNCMODE_ALL = SYNCMODE_OPLOG := congrArg Prod.fst heq
        exact absurd hms (by decide)
      · intro hall
        rw [List.any_eq_true] at hany
        obtain ⟨p, hp, hpo⟩ := hany
        rw [decide_eq_true_eq] at hpo
        exact absurd (hall p hp) (not_lt.mpr hpo)
    · rw [selectSyncMode_all_ok, if_neg hany]
      constructor
      · intro _ p hp
        by_contra hlt
        exact hany (List.any_eq_true.mpr ⟨p, hp, decide_eq_true (not_lt.mp hlt)⟩)
      · intro _
        rfl
  · intro hnall
    push_neg at hnall
    obtain ⟨p, hp, hpo⟩ := hnall
    have hany : nodes.any (fun p => decide (p.2.Oldest ≥ ckptTs p.1)) = true :=
      List.any_eq_true.mpr ⟨p, hp, decide_eq_true (not_lt.mp (not_lt.mpr hpo))⟩
    rw [selectSyncMode_all_ok, if_pos hany]
  · intro p hp
    exact foldl_min_le_mem _ _ _ (List.mem_map_of_mem (fun q => q.2.Newest) hp)
  · intro hne hbound
    rcases foldl_min_mem_or_init (nodes.map (fun p => p.2.Newest)) (2 ^ 63 - 1) with h | h
    · obtain ⟨p, hp⟩ := List.exists_mem_of_ne_nil nodes hne
      refine ⟨p, hp, le_antisymm ?_ ?_⟩
      · exact foldl_min_le_mem _ _ _ (List.mem_map_of_mem (fun q => q.2.Newest) hp)
      · calc p.2.Newest ≤ 2 ^ 63 - 1 := hbound p hp
          _ = (getAllTimestamp nodes).smallestNew := h.symm
    · obtain ⟨p, hp, hpe⟩ := List.mem_map.mp h
      exact ⟨p, hp, hpe.symm⟩

/-- Claim C1, witness for `selectSyncMode_amended`: with a single
source of oldest `5`, newest `10` and checkpoint `3`, mode `document`
passes through unchanged and mode `all` is kept with
`fullBeginTs = 10`. -/
theorem selectSyncMode_amended_witness :
    selectSyncMode SYNCMODE_DOCUMENT (.ok [("r", ⟨5, 10⟩)]) (fun _ => 3)
      = (SYNCMODE_DOCUMENT, 0, none)
    ∧ selectSyncMode SYNCMODE_ALL (.ok [("r", ⟨5, 10⟩)]) (fun _ => 3)
      = (SYNCMODE_ALL, 10, none) := by
  constructor
  · exact (selectSyncMode_amended SYNCMODE_DOCUMENT (.ok [("r", ⟨5, 10⟩)])
      (fun _ => 3) [("r", ⟨5, 10⟩)]).1 (by decide)
  · have h := (selectSyncMode_amended SYNCMODE_ALL (.ok [("r", ⟨5, 10⟩)])
      (fun _ => 3) [("r", ⟨5, 10⟩)]).2.2.1 (by decide)
    rw [h]
    decide

/-- Claim C9: when `utils.GetAllTimestamp` fails inside
`selectSyncMode` under configured mode `all`, the error is discarded:
the function returns mode `all`, `fullBeginTs = 0` and a `nil` error,
for every stored-checkpoint function. -/
theorem selectSyncMode_fetch_error_swallowed (ckptTs : String → Int) (e : Unit) :
    selectSyncMode SYNCMODE_ALL (.error e) ckptTs = (SYNCMODE_ALL, 0, none) := by
  simp [selectSyncMode]

/-- Claim C3: the code at `replication.go:83` compares
`ExtractMongoTimestamp(oldestTs)` — the **seconds** part of the oldest
timestamp — against the full 64-bit `fullBeginTs`, so the fatal
handoff check almost never fires.  Failing input: one source whose
oldest journal entry has reached second 100 (`100 · 2^32 =
429496729600`) while full sync began at second 90 (`fullBeginTs =
90 · 2^32 = 386547056640`) and the newest entry is at second 500.  The
oldest timestamp is past `fullBeginTs` (second conjunct), so the claim
— and the code's own error message, which compares the two in like
units — demands the fatal error; yet the code proceeds to start
incremental replication because it compares `100 ≥ 386547056640`
(third conjunct shows the extracted seconds). -/
theorem runSyncModeAll_unit_mismatch :
    runSyncModeAll (.ok [("r", ⟨429496729600, 2147483648000⟩)]) 386547056640
      = .startIncr 386547056640 2147483648000
    ∧ (429496729600 : Int) ≥ 386547056640
    ∧ ExtractMongoTimestamp 429496729600 = 100 := by
  refine ⟨by decide, by decide, by decide⟩

/-! ### Claims C6 and C8 about `transfer` and the deserializer -/

lemma transfer_spec {α : Type} (cap : Nat) (st : SyncerState α) (log : Option α) :
    ((transfer cap st log).2 = true
        ↔ cap ≤ (st.buffer ++ log.toList).length
          ∨ (log = none ∧ st.buffer ++ log.toList ≠ []))
    ∧ ((transfer cap st log).2 = true →
        (transfer cap st log).1
          = ⟨[], st.pendingQueue.set (st.nextQueuePosition % st.pendingQueue.length)
               ((st.pendingQueue.getD (st.nextQueuePosition % st.pendingQueue.length) [])
                 ++ [st.buffer ++ log.toList]),
             st.nextQueuePosition + 1⟩)
    ∧ ((transfer cap st log).2 = false →
        (transfer cap st log).1
          = ⟨st.buffer ++ log.toList, st.pendingQueue, st.nextQueuePosition⟩) := by
  cases log with
  | some l =>
    refine ⟨?_, ?_, ?_⟩ <;>
      (simp only [transfer]; split <;> simp_all)
  | none =>
    by_cases hc : cap ≤ st.buffer.length ∨ st.buffer.length ≠ 0
    · have hC : cap ≤ st.buffer.length
          ∨ ((none : Option α).isNone = true ∧ ¬st.buffer.length = 0) := by
        simpa using hc
      refine ⟨?_, ?_, ?_⟩
      · simp only [transfer]
        rw [if_pos hC]
        refine iff_of_true rfl ?_
        simpa [List.length_eq_zero] using hc
      · simp only [transfer]
        rw [if_pos hC]
        intro _
        simp
      · simp only [transfer]
        rw [if_pos hC]
        intro h
        exact absurd h (by simp)
    · have hC : ¬ (cap ≤ st.buffer.length
          ∨ ((none : Option α).isNone = true ∧ ¬st.buffer.length = 0)) := by
        simpa using hc
      refine ⟨?_, ?_, ?_⟩
      · simp only [transfer]
        rw [if_neg hC]
        refine iff_of_false (by simp) ?_
        simpa [List.length_eq_zero] using hc
      · simp only [transfer]
        rw [if_neg hC]
        intro h
        exact absurd h (by simp)
      · simp only [transfer]
        rw [if_neg hC]
        intro _
        simp

/-- Claim C6: for every call to `transfer`, a non-nil entry is appended
to the local buffer (the buffer considered below is
`st.buffer ++ log.toList`); the buffer is pushed to a pending queue
exactly when its length has reached `FetcherBufferCapacity` (`cap`) or
the call carried no new entry and the buffer is non-empty; on a push
the chosen partition is `nextQueuePosition % len(pendingQueue)`, the
batch is appended to that queue, `nextQueuePosition` is incremented by
one and the buffer is reset to empty; when no push occurs, the
position and the queues are unchanged and the buffer keeps its (possibly
extended) contents.  The hypothesis `0 < len(pendingQueue)` mirrors the
source, which always creates at least one pending queue. -/
theorem transfer_characterization {α : Type} (cap : Nat) (st : SyncerState α)
    (log : Option α) (hP : 0 < st.pendingQueue.length) :
    ((transfer cap st log).2 = true
        ↔ cap ≤ (st.buffer ++ log.toList).length
          ∨ (log = none ∧ st.buffer ++ log.toList ≠ []))
    ∧ ((transfer cap st log).2 = true →
        (transfer cap st log).1.buffer = []
        ∧ (transfer cap st log).1.nextQueuePosition = st.nextQueuePosition + 1
        ∧ (transfer cap st log).1.pendingQueue
            = st.pendingQueue.set (st.nextQueuePosition % st.pendingQueue.length)
              ((st.pendingQueue.getD (st.nextQueuePosition % st.pendingQueue.length) [])
                ++ [st.buffer ++ log.toList])
        ∧ st.nextQueuePosition % st.pendingQueue.length < st.pendingQueue.length)
    ∧ ((transfer cap st log).2 = false →
        (transfer cap st log).1.buffer = st.buffer ++ log.toList
        ∧ (transfer cap st log).1.nextQueuePosition = st.nextQueuePosition
        ∧ (transfer cap st log).1.pendingQueue = st.pendingQueue) := by
  obtain ⟨h1, h2, h3⟩ := transfer_spec cap st log
  refine ⟨h1, ?_, ?_⟩
  · intro ht
    rw [h2 ht]
    exact ⟨rfl, rfl, rfl, Nat.mod_lt _ hP⟩
  · intro hf
    rw [h3 hf]
    exact ⟨rfl, rfl, rfl⟩

/-- Claim C6, witness for `transfer_characterization`: with capacity 3,
buffer `[1]`, one empty pending queue and position 4, an entry call
does not push (buffer grows to `[1, 2]`), and a flush-on-idle call
pushes `[1]` to partition `4 % 1 = 0` and increments the position
to 5. -/
theorem transfer_characterization_witness :
    (transfer 3 (⟨[1], [[]], 4⟩ : SyncerState Int) (some 2)).1.buffer = [1, 2]
    ∧ (transfer 3 (⟨[1], [[]], 4⟩ : SyncerState Int) (some 2)).1.nextQueuePosition = 4
    ∧ (transfer 3 (⟨[1], [[]], 4⟩ : SyncerState Int) none).1.nextQueuePosition = 5
    ∧ (transfer 3 (⟨[1], [[]], 4⟩ : SyncerState Int) none).1.pendingQueue = [[[1]]] := by
  have hsome := transfer_characterization 3 (⟨[1], [[]], 4⟩ : SyncerState Int)
    (some 2) (by decide)
  have hnone := transfer_characterization 3 (⟨[1], [[]], 4⟩ : SyncerState Int)
    none (by decide)
  have hs := hsome.2.2 (by decide)
  have hn := hnone.2.1 (by decide)
  refine ⟨by simpa using hs.1, hs.2.1, hn.2.1, ?_⟩
  rw [hn.2.2.1]
  decide

/-- Claim C8: under `FetcherBufferCapacity ≥ 1`, if every batch already
sitting in the pending queues is non-empty then after any `transfer`
call every batch in the pending queues is still non-empty — in
particular every batch `transfer` pushes is non-empty, the
deserializer's assertion `len(batchRawLogs) != 0` never fails on a
dequeued batch, and the parsed batch the deserializer pushes into
`logsQueue` (of the same length) is likewise non-empty. -/
theorem transfer_deserializer_nonempty {α β : Type} (parse : α → β) (cap : Nat)
    (st : SyncerState α) (log : Option α) (hcap : 1 ≤ cap)
    (hinv : ∀ q ∈ st.pendingQueue, ∀ b ∈ q, b ≠ []) :
    ∀ q ∈ (transfer cap st log).1.pendingQueue, ∀ b ∈ q,
      b ≠ [] ∧ deserializeBatch parse b ≠ [] := by
  intro q hq b hb
  obtain ⟨h1, h2, h3⟩ := transfer_spec cap st log
  have hbn : b ≠ [] := by
    cases htr : (transfer cap st log).2 with
    | false =>
      rw [h3 htr] at hq
      exact hinv q hq b hb
    | true =>
      rw [h2 htr] at hq
      rcases List.mem_or_eq_of_mem_set hq with hq' | hq'
      · exact hinv q hq' b hb
      · subst hq'
        rcases List.mem_append.mp hb with hb' | hb'
        · rcases Nat.lt_or_ge (st.nextQueuePosition % st.pendingQueue.length)
            st.pendingQueue.length with hsel | hsel
          · rw [List.getD_eq_getElem _ _ hsel] at hb'
            exact hinv _ (List.getElem_mem hsel) b hb'
          · rw [List.getD_eq_getElem?_getD, List.getElem?_eq_none hsel] at hb'
            exact absurd hb' (List.not_mem_nil b)
        · rw [List.mem_singleton] at hb'
          subst hb'
          rcases h1.mp htr with hcl | hcl
          · exact List.ne_nil_of_length_pos (le_trans hcap hcl)
          · exact hcl.2
  exact ⟨hbn, by simpa [deserializeBatch] using hbn⟩

/-- Claim C8, witness for `transfer_deserializer_nonempty`: with
capacity 1 and an initially empty single queue, transferring the entry
`7` pushes the batch `[7]`, which is non-empty and deserializes to a
non-empty parsed batch. -/
theorem transfer_deserializer_nonempty_witness :
    ([7] : List Int) ≠ []
    ∧ deserializeBatch (fun x : Int => (x, x)) [7] ≠ [] := by
  exact transfer_deserializer_nonempty (fun x : Int => (x, x)) 1
    (⟨[], [[]], 0⟩ : SyncerState Int) (some 7) (by decide)
    (by intro q hq b hb; simp at hq; subst hq; simp at hb)
    [[7]] (by decide) [7] (by decide)

/-! ### Claim C5 about `next` and `poll` -/

lemma pollLoop_count_eq {α : Type} (cap cap' : Nat) (isMaster throttle : Nat → Bool)
    (rs rs' : Nat → ReaderResult α) :
    ∀ (fuel i : Nat) (st st' : SyncerState α),
      (pollLoop cap isMaster throttle rs st i fuel).2
        = (pollLoop cap' isMaster throttle rs' st' i fuel).2 := by
  intro fuel
  induction fuel with
  | zero =>
    intro i st st'
    rfl
  | succ f ih =>
    intro i st st'
    by_cases hm : isMaster i = true
    · by_cases ht : throttle i = true
      · simpa [pollLoop, hm, ht] using ih (i + 1) st st'
      · simpa [pollLoop, hm, ht] using
          ih (i + 1) (next cap st (rs i)).1 (next cap' st' (rs' i)).1
    · simp [pollLoop, hm]

/-- Claim C5, counterexample.  The claim says a `CollectionCapped`
reader error is terminal for the source: `poll` stops fetching further
entries.  In the source, `poll`'s loop discards `next`'s return value
(`sync.next()` at `part_000` line 359) and its only condition is
`quorum.IsMaster()`.  With the node permanently master, no throttling
and a reader that yields `CollectionCapped` on every call, three loop
iterations perform three fetches — fetching continues after the first
capped error (and after the second), even though each `next` call
returned `false`. -/
theorem pollLoop_capped_cx :
    (pollLoop 256 (fun _ => true) (fun _ => false)
        (fun _ => (ReaderResult.capped : ReaderResult Int)) ⟨[], [[]], 0⟩ 0 3).2 = 3
    ∧ (next 256 (⟨[], [[]], 0⟩ : SyncerState Int) ReaderResult.capped).2.1 = false
    ∧ (3 : Nat) > 1 := by
  refine ⟨by decide, by decide, by decide⟩

/-- Claim C5, amended: when `Reader.Next` yields the `CollectionCapped`
error, `next` returns `false` with the syncer state untouched and no
batch transferred — but this is not terminal for the source: `poll`'s
loop discards the return value and keeps invoking `next` (hence
re-fetching) while the node holds master quorum, so the number of
fetches depends only on mastership and throttling, never on the reader
results (last conjunct).  On any other non-timeout error, `next` marks
the fetch status bad, yields `DurationTime = 6000` ms, flushes the
buffer like an idle call, and returns into `poll`'s loop; the outer
`start` loop re-enters `poll` only once mastership is lost. -/
theorem next_error_handling {α : Type} (cap cap' : Nat) (st st' : SyncerState α)
    (isMaster throttle : Nat → Bool) (rs rs' : Nat → ReaderResult α) (i fuel : Nat) :
    next cap st ReaderResult.capped = (st, false, NextEffect.cappedLogged)
    ∧ (next cap st ReaderResult.otherErr).2.2 = NextEffect.fetchBadYield DurationTime
    ∧ DurationTime = 6000
    ∧ (next cap st ReaderResult.otherErr).1 = (transfer cap st none).1
    ∧ (pollLoop cap isMaster throttle rs st i fuel).2
        = (pollLoop cap' isMaster throttle rs' st' i fuel).2 := by
  refine ⟨rfl, rfl, rfl, rfl, pollLoop_count_eq cap cap' isMaster throttle rs rs' fuel i st st'⟩

/-! ### Claim C2 about `checkCheckpointUpdate` -/

lemma checkCheckpointUpdateLoop_spec (ckptAt : Nat → Int) (newestTs : Int) :
    ∀ (fuel i : Nat),
      (∀ k, checkCheckpointUpdateLoop ckptAt newestTs i fuel = some k →
        i ≤ k ∧ ckptAt k ≥ newestTs ∧ ∀ j, i ≤ j → j < k → ¬ ckptAt j ≥ newestTs)
      ∧ (checkCheckpointUpdateLoop ckptAt newestTs i fuel = none →
        ∀ j, i ≤ j → j < i + fuel → ¬ ckptAt j ≥ newestTs) := by
  intro fuel
  induction fuel with
  | zero =>
    intro i
    constructor
    · intro k hk
      exact absurd hk (by simp [checkCheckpointUpdateLoop])
    · intro _ j hij hj
      omega
  | succ f ih =>
    intro i
    by_cases hi : ckptAt i ≥ newestTs
    · constructor
      · intro k hk
        rw [checkCheckpointUpdateLoop, if_pos hi] at hk
        obtain rfl : i = k := Option.some.inj hk
        exact ⟨le_refl i, hi, fun j hij hj => absurd hij (by omega)⟩
      · intro hk
        rw [checkCheckpointUpdateLoop, if_pos hi] at hk
        exact absurd hk (by simp)
    · constructor
      · intro k hk
        rw [checkCheckpointUpdateLoop, if_neg hi] at hk
        obtain ⟨hik, hck, hbetween⟩ := ((ih (i + 1)).1 k) hk
        refine ⟨by omega, hck, ?_⟩
        intro j hij hjk
        rcases eq_or_lt_of_le hij with h | h
        · subst h
          exact hi
        · exact hbetween j (by omega) hjk
      · intro hk
        rw [checkCheckpointUpdateLoop, if_neg hi] at hk
        intro j hij hj
        rcases eq_or_lt_of_le hij with h | h
        · subst h
          exact hi
        · exact (ih (i + 1)).2 hk j (by omega) (by omega)

/-- Claim C2, counterexample.  The claim says the barrier spin has "no
additional precondition" beyond `barrier = true` and `newestT > 0`.
The source guards the loop with `conf.Options.WorkerNum > 1` as well
(`part_000` line 264).  With one worker, a barrier and `newestT = 5`,
the function returns immediately (zero spin rounds) although the
checkpoint reading is `0 < 5`. -/
theorem checkCheckpointUpdate_workerNum_cx :
    checkCheckpointUpdate 1 true 5 (fun _ => 0) 3 = some 0
    ∧ ¬ ((0 : Int) ≥ 5) := by
  refine ⟨by decide, by decide⟩

/-- Claim C2, amended: for every batch whose barrier flag is true,
whose newest timestamp is positive — and, additionally, when
`conf.Options.WorkerNum > 1` — `checkCheckpointUpdate` does not return
(and hence the batcher accepts no further batch) until the checkpoint
manager's in-memory timestamp reaches `newestTs`: if it returns after
`k` rounds, the `k`-th reading satisfies `ckpt ≥ newestTs` and every
earlier reading did not (first conjunct); if it is still spinning after
`fuel` readings, none of them reached `newestTs` (second conjunct).
Between consecutive readings the source sleeps
`DDLCheckpointInterval = 300` ms and re-flushes the checkpoint (third
conjunct pins the constant).  With `WorkerNum ≤ 1` (or a non-positive
`newestTs`, or no barrier) the function instead returns at once. -/
theorem checkCheckpointUpdate_spin (workerNum newestTs : Int)
    (ckptAt : Nat → Int) (fuel : Nat) (hw : workerNum > 1) (hts : newestTs > 0) :
    (∀ k, checkCheckpointUpdate workerNum true newestTs ckptAt fuel = some k →
      ckptAt k ≥ newestTs ∧ ∀ j, j < k → ¬ ckptAt j ≥ newestTs)
    ∧ (checkCheckpointUpdate workerNum true newestTs ckptAt fuel = none →
      ∀ j, j < fuel → ¬ ckptAt j ≥ newestTs)
    ∧ DDLCheckpointInterval = 300 := by
  have hguard : (true = true ∧ newestTs > 0 ∧ workerNum > 1) := ⟨rfl, hts, hw⟩
  have hloop := checkCheckpointUpdateLoop_spec ckptAt newestTs fuel 0
  constructor
  · intro k hk
    rw [checkCheckpointUpdate, if_pos hguard] at hk
    obtain ⟨_, hck, hbetween⟩ := (hloop.1 k) hk
    exact ⟨hck, fun j hj => hbetween j (Nat.zero_le j) hj⟩
  constructor
  · intro hk
    rw [checkCheckpointUpdate, if_pos hguard] at hk
    intro j hj
    exact hloop.2 hk j (Nat.zero_le j) (by omega)
  · rfl

/-- Claim C2, witness for `checkCheckpointUpdate_spin`: with two
workers, `newestTs = 5` and checkpoint readings `0, 0, 5, 5, …`, the
spin returns after two rounds and the reading it stopped on has indeed
reached `newestTs`. -/
theorem checkCheckpointUpdate_spin_witness :
    checkCheckpointUpdate 2 true 5 (fun i => if 2 ≤ i then (5 : Int) else 0) 10 = some 2
    ∧ (fun i => if 2 ≤ i then (5 : Int) else 0) 2 ≥ 5 := by
  refine ⟨by decide, ?_⟩
  exact ((checkCheckpointUpdate_spin 2 5 (fun i => if 2 ≤ i then (5 : Int) else 0) 10
    (by decide) (by decide)).1 2 (by decide)).1

/-! ### Claim C4 about the filtered-only checkpoint advance -/

/-- Claim C4, counterexample.  The claim requires the mandatory push
when the feed has been filtered-only "for at least" 180 seconds; the
source requires strictly more: `now.After(filterCheckTs.Add(180s))`
(`part_000` line 217).  With the filter flag set at wall time 0, a
filtered entry at logical second 400 (`400 · 2^32 = 1717986918400`), a
stored checkpoint of 0 and the current iteration at wall time exactly
`180 · 10^9` ns, exactly 180 seconds have elapsed (second conjunct) and
the logical gap exceeds 180 seconds (third conjunct), yet the iteration
does nothing. -/
theorem batcherIteration_boundary_cx :
    (batcherIteration ⟨true, 0⟩ none (some 1717986918400) true
        (180 * 1000000000) 0).2 = BatcherAction.skip
    ∧ (180 * 1000000000 : Int)
        ≥ 0 + FilterCheckpointCheckInterval * timeSecondNs
    ∧ ExtractMongoTimestamp 1717986918400 - FilterCheckpointGap
        > ExtractMongoTimestamp 0 := by
  refine ⟨by decide, by decide, by decide⟩

/-- Claim C4, amended: a filtered-only iteration of the batcher loop
pushes the checkpoint forward to the newest filtered entry's timestamp
`f` exactly when: the call produced nothing dispatchable (no last
oplog, or all queues empty), the last filtered oplog is at `f`, the
filter flag was already set by an earlier filtered-only iteration, the
current wall time exceeds the flag's wall time by **strictly more
than** `FilterCheckpointCheckInterval` (180 s), the filtered timestamp
exceeds the stored checkpoint by more than `FilterCheckpointGap` (180 s
of logical time), and `f` is newer than the last non-filtered oplog
when one exists (failing that, the iteration crashes the process
instead of advancing).  Under any other condition a filtered-only
iteration does not advance the checkpoint. -/
theorem batcherIteration_mandatory_iff (st : BatcherLoopState)
    (log filterLog : Option Int) (allEmpty : Bool) (now ckptTs f : Int) :
    (batcherIteration st log filterLog allEmpty now ckptTs).2.advancesTo = some f
      ↔ (log = none ∨ allEmpty = true)
        ∧ filterLog = some f
        ∧ st.filterFlag = true
        ∧ now > st.filterCheckTs + FilterCheckpointCheckInterval * timeSecondNs
        ∧ ExtractMongoTimestamp f - FilterCheckpointGap > ExtractMongoTimestamp ckptTs
        ∧ (∀ l, log = some l → l < f) := by
  cases log with
  | none =>
    cases filterLog with
    | none => simp [batcherIteration, BatcherAction.advancesTo]
    | some g =>
      by_cases h1 : st.filterFlag = true
      · by_cases h2 : now > st.filterCheckTs + FilterCheckpointCheckInterval * timeSecondNs
        · by_cases h3 : ExtractMongoTimestamp g - FilterCheckpointGap > ExtractMongoTimestamp ckptTs
          · constructor
            · intro hL
              have hgf : g = f := by
                simpa [batcherIteration, BatcherAction.advancesTo, h1, h2, h3] using hL
              subst hgf
              refine ⟨Or.inl rfl, rfl, h1, h2, h3, ?_⟩
              intro l hl
              cases hl
            · rintro ⟨-, hgf, -, -, -, -⟩
              obtain rfl : g = f := Option.some.inj hgf
              simp [batcherIteration, BatcherAction.advancesTo, h1, h2, h3]
          · constructor
            · intro hL
              exact absurd hL
                (by simp [batcherIteration, BatcherAction.advancesTo, h1, h2, h3])
            · rintro ⟨-, hgf, -, -, hgap, -⟩
              obtain rfl : g = f := Option.some.inj hgf
              exact absurd hgap h3
        · constructor
          · intro hL
            exact absurd hL
              (by simp [batcherIteration, BatcherAction.advancesTo, h1, h2])
          · rintro ⟨-, -, -, h2', -⟩
            exact absurd h2' h2
      · have h1' : st.filterFlag = false := by
          revert h1
          cases st.filterFlag <;> simp
        constructor
        · intro hL
          exact absurd hL
            (by simp [batcherIteration, BatcherAction.advancesTo, h1'])
        · rintro ⟨-, -, h3', -⟩
          exact absurd h3' (by simp [h1'])
  | some l =>
    cases allEmpty with
    | false =>
      constructor
      · intro hL
        exact absurd hL (by simp [batcherIteration, BatcherAction.advancesTo])
      · rintro ⟨hor, -⟩
        rcases hor with h | h
        · cases h
        · cases h
    | true =>
      cases filterLog with
      | none => simp [batcherIteration, BatcherAction.advancesTo]
      | some g =>
        by_cases h1 : st.filterFlag = true
        · by_cases h2 : now > st.filterCheckTs + FilterCheckpointCheckInterval * timeSecondNs
          · by_cases h3 : ExtractMongoTimestamp g - FilterCheckpointGap > ExtractMongoTimestamp ckptTs
            · by_cases h4 : g ≤ l
              · constructor
                · intro hL
                  exact absurd hL
                    (by simp [batcherIteration, BatcherAction.advancesTo, h1, h2, h3, h4])
                · rintro ⟨-, hgf, -, -, -, hlt⟩
                  obtain rfl : g = f := Option.some.inj hgf
                  exact absurd (hlt l rfl) (not_lt.mpr h4)
              · constructor
                · intro hL
                  have hgf : g = f := by
                    simpa [batcherIteration, BatcherAction.advancesTo, h1, h2, h3, h4] using hL
                  subst hgf
                  refine ⟨Or.inr rfl, rfl, h1, h2, h3, ?_⟩
                  intro l' hl'
                  obtain rfl : l = l' := Option.some.inj hl'
                  exact not_le.mp h4
                · rintro ⟨-, hgf, -, -, -, -⟩
                  obtain rfl : g = f := Option.some.inj hgf
                  simp [batcherIteration, BatcherAction.advancesTo, h1, h2, h3, h4]
            · constructor
              · intro hL
                exact absurd hL
                  (by simp [batcherIteration, BatcherAction.advancesTo, h1, h2, h3])
              · rintro ⟨-, hgf, -, -, hgap, -⟩
                obtain rfl : g = f := Option.some.inj hgf
                exact absurd hgap h3
          · constructor
            · intro hL
              exact absurd hL
                (by simp [batcherIteration, BatcherAction.advancesTo, h1, h2])
            · rintro ⟨-, -, -, h2', -⟩
              exact absurd h2' h2
        · have h1' : st.filterFlag = false := by
            revert h1
            cases st.filterFlag <;> simp
          constructor
          · intro hL
            exact absurd hL
              (by simp [batcherIteration, BatcherAction.advancesTo, h1'])
          · rintro ⟨-, -, h3', -⟩
            exact absurd h3' (by simp [h1'])

/-! ### Claim C7 about `DBSyncer.Start` -/

lemma dbSyncerLoop_spec {δ ε : Type} (collectionSyncRes : δ → Option ε) :
    ∀ (l : List δ) (a : Option ε),
      dbSyncerLoop collectionSyncRes a l
        = (match (l.filterMap collectionSyncRes).getLast? with
            | some e => some e
            | none => a,
           l.length) := by
  intro l
  induction l with
  | nil =>
    intro a
    rfl
  | cons ns rest ih =>
    intro a
    cases hr : collectionSyncRes ns with
    | none =>
      simp only [dbSyncerLoop, hr, ih]
      simp [List.filterMap_cons, hr]
    | some err =>
      simp only [dbSyncerLoop, hr, ih]
      simp only [List.filterMap_cons, hr, List.length_cons]
      cases hfm : rest.filterMap collectionSyncRes with
      | nil => simp
      | cons x xs =>
        rw [List.getLast?_cons_cons]
        cases h2 : (x :: xs).getLast? with
        | none =>
          have h3 := List.getLast?_eq_getLast_of_ne_nil (l := x :: xs) (by simp)
          rw [h2] at h3
          cases h3
        | some e2 => rfl

/-- Claim C7, counterexample.  With two namespaces that both fail —
namespace 1 with error 101 first, namespace 2 with error 102 later —
`DBSyncer.Start` returns error 102: every failure overwrites the shared
`syncError` variable (`part_001` line 486), so the last failure wins,
not the first as the claim states. -/
theorem dbSyncerStart_first_error_cx :
    (dbSyncerStart (fun n => if n = 1 then some 101 else some 102) [1, 2]).1 = some 102
    ∧ ([1, 2].filterMap (fun n => if n = 1 then some 101 else some 102)).head? = some 101
    ∧ (some 102 : Option Nat) ≠ some 101 := by
  refine ⟨by decide, by decide, by decide⟩

/-- Claim C7, amended: when `DBSyncer.Start` synchronizes several
namespaces and some `collectionSync` calls fail, every remaining
namespace is still processed (the count of processed namespaces equals
the length of the namespace list), and the value returned by `Start` is
the **last**-observed namespace failure — each failure overwrites
`syncError` — not the first. -/
theorem dbSyncerStart_spec {δ ε : Type} (collectionSyncRes : δ → Option ε)
    (nsList : List δ) :
    (dbSyncerStart collectionSyncRes nsList).2 = nsList.length
    ∧ (dbSyncerStart collectionSyncRes nsList).1
        = (nsList.filterMap collectionSyncRes).getLast? := by
  rw [dbSyncerStart, dbSyncerLoop_spec collectionSyncRes nsList none]
  refine ⟨rfl, ?_⟩
  cases (nsList.filterMap collectionSyncRes).getLast? with
  | none => rfl
  | some e => rfl

/-! ### Claim C10 about the document executors -/

lemma docExecutorStep_wg {γ ε : Type} (doSyncRes : γ → Option ε)
    (st : DocExecutorState γ ε) (b : γ) :
    (docExecutorStep doSyncRes st b).wgDoneCount = st.wgDoneCount + 1 := by
  rw [docExecutorStep]
  split <;> rfl

lemma docExecutorRun_wg {γ ε : Type} (doSyncRes : γ → Option ε) :
    ∀ (batches : List γ) (st : DocExecutorState γ ε),
      (docExecutorRun doSyncRes st batches).wgDoneCount
        = st.wgDoneCount + batches.length := by
  intro batches
  induction batches with
  | nil =>
    intro st
    simp [docExecutorRun]
  | cons b rest ih =>
    intro st
    rw [docExecutorRun, ih, docExecutorStep_wg]
    simp only [List.length_cons]
    omega

lemma docExecutorRun_stuck {γ ε : Type} (doSyncRes : γ → Option ε) :
    ∀ (batches : List γ) (st : DocExecutorState γ ε) (e : ε), st.error = some e →
      docExecutorRun doSyncRes st batches
        = ⟨some e, st.wgDoneCount + batches.length, st.attempted⟩ := by
  intro batches
  induction batches with
  | nil =>
    intro st e he
    cases st
    simp_all [docExecutorRun]
  | cons b rest ih =>
    intro st e he
    have hcond : ¬ (st.error.isNone = true) := by simp [he]
    rw [docExecutorRun, docExecutorStep, if_neg hcond]
    have hrun := ih { st with wgDoneCount := st.wgDoneCount + 1 } e (by simpa using he)
    rw [hrun]
    simp only [List.length_cons]
    exact congrArg (fun n => DocExecutorState.mk (some e) n st.attempted) (by omega)

lemma docExecutorRun_fresh {γ ε : Type} (doSyncRes : γ → Option ε) :
    ∀ (batches : List γ) (st : DocExecutorState γ ε), st.error = none →
      (docExecutorRun doSyncRes st batches).attempted
        = st.attempted
          ++ batches.take ((batches.takeWhile (fun b => (doSyncRes b).isNone)).length + 1)
      ∧ (docExecutorRun doSyncRes st batches).error
        = (batches.filterMap doSyncRes).head? := by
  intro batches
  induction batches with
  | nil =>
    intro st he
    constructor
    · simp [docExecutorRun]
    · simpa [docExecutorRun] using he
  | cons b rest ih =>
    intro st he
    have hcond : st.error.isNone = true := by simp [he]
    cases hr : doSyncRes b with
    | none =>
      have hstep : docExecutorStep doSyncRes st b
          = ⟨none, st.wgDoneCount + 1, st.attempted ++ [b]⟩ := by
        rw [docExecutorStep, if_pos hcond, hr]
      rw [docExecutorRun, hstep]
      obtain ⟨ha, herr⟩ := ih ⟨none, st.wgDoneCount + 1, st.attempted ++ [b]⟩ rfl
      constructor
      · rw [ha]
        simp [List.takeWhile_cons, hr, List.take_succ_cons]
      · rw [herr]
        simp [List.filterMap_cons, hr]
    | some err =>
      have hstep : docExecutorStep doSyncRes st b
          = ⟨some err, st.wgDoneCount + 1, st.attempted ++ [b]⟩ := by
        rw [docExecutorStep, if_pos hcond, hr]
      rw [docExecutorRun, hstep]
      rw [docExecutorRun_stuck doSyncRes rest _ err rfl]
      constructor
      · simp [List.takeWhile_cons, hr]
      · simp [List.filterMap_cons, hr]

lemma collectionExecutorWait_lowest {ε : Type} :
    ∀ (execErrors : List (Option ε)) (i : Nat) (e : ε),
      execErrors.get? i = some (some e) →
      (∀ j, j < i → execErrors.get? j = some none) →
      collectionExecutorWait execErrors = some e := by
  intro execErrors
  induction execErrors with
  | nil =>
    intro i e hi _
    simp at hi
  | cons x rest ih =>
    intro i e hi hbefore
    cases x with
    | none =>
      cases i with
      | zero => simp at hi
      | succ k =>
        rw [collectionExecutorWait]
        exact ih k e (by simpa using hi)
          (fun j hj => by simpa using hbefore (j + 1) (by omega))
    | some e' =>
      cases i with
      | zero =>
        obtain rfl : e' = e := by simpa using hi
        rfl
      | succ k =>
        have h0 := hbefore 0 (by omega)
        simp at h0

/-- Claim C10: once a `DocExecutor` has recorded an error, every batch
it subsequently dequeues is discarded without an insert being
attempted — the batches handed to `doSync` are exactly the successful
prefix plus the first failing batch (second conjunct) — while
`wg.Done()` still runs for every dequeued batch (first conjunct), so
the wait group drains and `CollectionExecutor.Wait` always returns; the
executor's final error is the first failure it saw (third conjunct);
`Wait` reports the error of the lowest-indexed failed executor in slice
order (fourth conjunct); and a `Sync` call with an empty batch neither
touches the wait counter nor enqueues anything (fifth conjunct). -/
theorem docExecutor_error_handling {γ ε : Type} (doSyncRes : γ → Option ε)
    (batches : List γ) (execErrors : List (Option ε)) (st : Nat × List (List γ)) :
    (docExecutorRun doSyncRes ⟨none, 0, []⟩ batches).wgDoneCount = batches.length
    ∧ (docExecutorRun doSyncRes ⟨none, 0, []⟩ batches).attempted
        = batches.take ((batches.takeWhile (fun b => (doSyncRes b).isNone)).length + 1)
    ∧ (docExecutorRun doSyncRes ⟨none, 0, []⟩ batches).error
        = (batches.filterMap doSyncRes).head?
    ∧ (∀ (i : Nat) (e : ε), execErrors.get? i = some (some e) →
        (∀ j, j < i → execErrors.get? j = some none) →
        collectionExecutorWait execErrors = some e)
    ∧ collectionExecutorSync st [] = st := by
  obtain ⟨ha, herr⟩ := docExecutorRun_fresh doSyncRes batches ⟨none, 0, []⟩ rfl
  refine ⟨?_, ?_, herr, ?_, ?_⟩
  · rw [docExecutorRun_wg]
    simp
  · simpa using ha
  · intro i e hi hb
    exact collectionExecutorWait_lowest execErrors i e hi hb
  · rfl

/-- Claim C10, witness for `docExecutor_error_handling`: with executor
error slots `[nil, error 7]`, `Wait` reports the lowest-indexed failure
`7`; and an empty `Sync` call leaves the counter/queue pair
untouched. -/
theorem docExecutor_error_handling_witness :
    collectionExecutorWait [none, some (7 : Nat)] = some 7
    ∧ collectionExecutorSync ((3, [[4]]) : Nat × List (List Nat)) [] = (3, [[4]]) := by
  have h := docExecutor_error_handling (fun _ : Nat => (none : Option Nat)) []
    [none, some (7 : Nat)] ((3, [[4]]) : Nat × List (List Nat))
  refine ⟨h.2.2.2.1 1 7 (by decide) ?_, h.2.2.2.2⟩
  intro j hj
  obtain rfl : j = 0 := by omega
  rfl
